import Mathlib

/-!
Verification of the photo-library client (`pyicloud/services/photos.py`).

This file gives a shallow embedding of the parts of the code that the
specification's claims are about:

* the record data model (`RawRecord`, `FieldValue`),
* the per-page reconciliation of asset records with master records
  (`partitionRecords`, `reconcile`, from `PhotoAlbum.photos`),
* the pagination step and loop with its offset cursor and retry handler
  (`photosStep`, `photosRun`, `initialOffset`, from `PhotoAlbum.photos`),
* the filename derivation including the base64/UTF-8 decoding path
  (`filename`, `pyB64DecodeUtf8`, from `PhotoAsset.filename`),
* version resolution (`computeVersions`, from `PhotoAsset.versions`),
  its memoization wrapper (`versionsProperty`) and `download`.

Machine text is modelled as Lean `String` (a list of unicode scalar
values, as in Python 3 `str`); byte strings are `List Nat` with every
element below 256.
-/

/-- A field value as the code reads it.  The code only ever reads a field's
`value` as: a plain string, a plain integer, a resolution object carrying
`size` and `downloadURL`, or a reference object carrying `recordName`
(used by `masterRef`).  Any other shape makes the corresponding Python
subscript raise, which the embedding models as `Option.none` results. -/
inductive FieldValue where
  | str (s : String)
  | int (n : Int)
  | res (size : Int) (downloadURL : String)
  | ref (recordName : String)
deriving DecidableEq

/-- A raw record of a query response.  `fields` maps a field name to the
entry's `value` key: `some v` models an entry dict carrying `"value": v`,
`none` models an entry dict without a usable `value` (the code treats such
an entry as falsy, i.e. like the empty dict). -/
structure RawRecord where
  recordType : String
  recordName : String
  fields : List (String × Option FieldValue)
deriving DecidableEq

/-- `fields[k]` as a dict access: `some entry` iff the key `k` is present. -/
def lookupField (m : RawRecord) (k : String) : Option (Option FieldValue) :=
  m.fields.lookup k

/-- `fields.get(k)` followed by a truthiness test and a `["value"]` read:
yields the value exactly when the key is present and carries a value. -/
def getFieldVal (m : RawRecord) (k : String) : Option FieldValue :=
  (lookupField m k).bind id

/-! ## UTF-8 encoding and decoding (used by `base64.b64decode(...).decode('utf-8')`) -/

/-- UTF-8 encoding of one unicode scalar value, as a list of bytes. -/
def utf8EncodeCP (n : Nat) : List Nat :=
  if n < 0x80 then [n]
  else if n < 0x800 then [0xC0 + n / 64, 0x80 + n % 64]
  else if n < 0x10000 then [0xE0 + n / 4096, 0x80 + n / 64 % 64, 0x80 + n % 64]
  else [0xF0 + n / 262144, 0x80 + n / 4096 % 64, 0x80 + n / 64 % 64, 0x80 + n % 64]

/-- UTF-8 encoding of a string as a byte list (Python `s.encode('utf-8')`). -/
def utf8Encode (s : String) : List Nat :=
  s.data.flatMap (fun c => utf8EncodeCP c.toNat)

/-- Decode one UTF-8 sequence whose first byte is `b` and whose
continuation bytes start `rest`: the scalar value and the number of
continuation bytes consumed, or `none` on malformed input (invalid,
truncated, overlong or surrogate sequences are rejected, as with
Python's strict `decode('utf-8')`). -/
def utf8DecodeOne (b : Nat) (rest : List Nat) : Option (Nat × Nat) :=
  if b < 0x80 then some (b, 0)
  else if b < 0xE0 then
    match rest with
    | b1 :: _ =>
        if 0xC2 ≤ b ∧ 0x80 ≤ b1 ∧ b1 < 0xC0 then
          some ((b - 0xC0) * 64 + (b1 - 0x80), 1)
        else none
    | [] => none
  else if b < 0xF0 then
    match rest with
    | b1 :: b2 :: _ =>
        if ((0x80 ≤ b1 ∧ b1 < 0xC0) ∧ (0x80 ≤ b2 ∧ b2 < 0xC0))
            ∧ 0x800 ≤ (b - 0xE0) * 4096 + (b1 - 0x80) * 64 + (b2 - 0x80)
            ∧ ((b - 0xE0) * 4096 + (b1 - 0x80) * 64 + (b2 - 0x80) < 0xD800
               ∨ 0xE000 ≤ (b - 0xE0) * 4096 + (b1 - 0x80) * 64 + (b2 - 0x80)) then
          some ((b - 0xE0) * 4096 + (b1 - 0x80) * 64 + (b2 - 0x80), 2)
        else none
    | _ => none
  else
    match rest with
    | b1 :: b2 :: b3 :: _ =>
        if (b < 0xF5 ∧ (0x80 ≤ b1 ∧ b1 < 0xC0) ∧ (0x80 ≤ b2 ∧ b2 < 0xC0)
            ∧ (0x80 ≤ b3 ∧ b3 < 0xC0))
            ∧ 0x10000 ≤ (b - 0xF0) * 262144 + (b1 - 0x80) * 4096 + (b2 - 0x80) * 64 + (b3 - 0x80)
            ∧ (b - 0xF0) * 262144 + (b1 - 0x80) * 4096 + (b2 - 0x80) * 64 + (b3 - 0x80)
              < 0x110000 then
          some ((b - 0xF0) * 262144 + (b1 - 0x80) * 4096 + (b2 - 0x80) * 64 + (b3 - 0x80), 3)
        else none
    | _ => none

/-- The decoding loop, structurally recursive on a fuel argument (each
step consumes at least one byte, so fuel ≥ length suffices). -/
def utf8DecodeLoop : Nat → List Nat → Option (List Nat)
  | _, [] => some []
  | 0, _ :: _ => none
  | fuel + 1, b :: rest =>
      match utf8DecodeOne b rest with
      | none => none
      | some (n, k) => (utf8DecodeLoop fuel (rest.drop k)).map (n :: ·)

/-- Strict UTF-8 decoding of a byte list into unicode scalar values;
`none` models `UnicodeDecodeError`. -/
def utf8DecodeCPs (l : List Nat) : Option (List Nat) :=
  utf8DecodeLoop l.length l

/-- Pack a decoded scalar value into a `Char`; `none` on invalid values. -/
def cpToChar (n : Nat) : Option Char :=
  if n.isValidChar then some (Char.ofNat n) else none

/-- Full UTF-8 decoding of a byte list into a string. -/
def utf8DecodeStr (l : List Nat) : Option String :=
  (utf8DecodeCPs l).bind (fun cps => (cps.mapM cpToChar).map String.mk)

/-! ## Base64 (Python `base64.b64decode` on text input) -/

/-- The standard base64 alphabet, in index order. -/
def B64_ALPHABET : List Char :=
  "ABCDEFGHIJKLMNOPQRSTUVWXYZabcdefghijklmnopqrstuvwxyz0123456789+/".data

/-- The alphabet character for a 6-bit group. -/
def b64Char (n : Nat) : Char := B64_ALPHABET.getD n 'A'

/-- The 6-bit group for an alphabet character, `none` off-alphabet. -/
def b64Index (c : Char) : Option Nat := B64_ALPHABET.findIdx? (fun x => x = c)

/-- Standard base64 encoding of a byte list, with `=` padding. -/
def b64EncodeBytes : List Nat → List Char
  | [] => []
  | [a] => [b64Char (a / 4), b64Char (a % 4 * 16), '=', '=']
  | [a, b] => [b64Char (a / 4), b64Char (a % 4 * 16 + b / 16), b64Char (b % 16 * 4), '=']
  | a :: b :: c :: rest =>
      b64Char (a / 4) :: b64Char (a % 4 * 16 + b / 16) :: b64Char (b % 16 * 4 + c / 64)
        :: b64Char (c % 64) :: b64EncodeBytes rest

/-- Decode a base64 text already reduced to alphabet/padding characters,
in groups of four; `none` models `binascii.Error` (bad padding). -/
def b64DecodeQuads : List Char → Option (List Nat)
  | [] => some []
  | c0 :: c1 :: c2 :: c3 :: rest =>
      if c2 = '=' ∧ c3 = '=' ∧ rest = [] then do
        let x ← b64Index c0
        let y ← b64Index c1
        some [x * 4 + y / 16]
      else if c3 = '=' ∧ rest = [] then do
        let x ← b64Index c0
        let y ← b64Index c1
        let z ← b64Index c2
        some [x * 4 + y / 16, y % 16 * 16 + z / 4]
      else do
        let x ← b64Index c0
        let y ← b64Index c1
        let z ← b64Index c2
        let w ← b64Index c3
        let tail ← b64DecodeQuads rest
        some ((x * 4 + y / 16) :: (y % 16 * 16 + z / 4) :: (z % 4 * 64 + w) :: tail)
  | _ => none

/-- Python `base64.b64decode` on a text value (default `validate=False`):
characters outside the alphabet and padding are discarded first. -/
def b64DecodeBytes (cs : List Char) : Option (List Nat) :=
  b64DecodeQuads (cs.filter (fun c => (b64Index c).isSome || c = '='))

/-- `base64.b64encode(s.encode('utf-8'))` as text. -/
def pyB64EncodeUtf8 (s : String) : String :=
  String.mk (b64EncodeBytes (utf8Encode s))

/-- `base64.b64decode(v).decode('utf-8')`; `none` models a raised error. -/
def pyB64DecodeUtf8 (v : String) : Option String :=
  (b64DecodeBytes v.data).bind utf8DecodeStr

/-! ## `PhotoAsset` lookup tables and accessors -/

/-- `PhotoAsset.ITEM_TYPES`: content-type tag to semantic kind. -/
def ITEM_TYPES : List (String × String) :=
  [("public.heic", "image"),
   ("public.jpeg", "image"),
   ("public.png", "image"),
   ("com.compuserve.gif", "image"),
   ("com.apple.quicktime-movie", "movie"),
   ("public.mpeg-4", "movie"),
   ("com.apple.m4v-video", "movie"),
   ("com.microsoft.bmp", "image"),
   ("com.adobe.raw-image", "image"),
   ("public.3gpp", "movie"),
   ("public.avi", "movie"),
   ("public.mpeg", "movie")]

/-- `PhotoAsset.ITEM_TYPE_EXTENSIONS`: content-type tag to canonical extension. -/
def ITEM_TYPE_EXTENSIONS : List (String × String) :=
  [("public.heic", "HEIC"),
   ("public.jpeg", "JPG"),
   ("public.png", "PNG"),
   ("com.apple.quicktime-movie", "MOV"),
   ("public.mpeg-4", "MP4"),
   ("com.apple.m4v-video", "M4V"),
   ("com.microsoft.bmp", "BMP"),
   ("public.3gpp", "3GP"),
   ("public.avi", "AVI"),
   ("public.mpeg", "MPG")]

/-- `PhotoAsset.PHOTO_VERSION_LOOKUP`: version name to field-name stem. -/
def PHOTO_VERSION_LOOKUP : List (String × String) :=
  [("original", "resOriginal"),
   ("medium", "resJPEGMed"),
   ("thumb", "resJPEGThumb"),
   ("originalVideo", "resOriginalVidCompl"),
   ("mediumVideo", "resVidMed"),
   ("thumbVideo", "resVidSmall")]

/-- `PhotoAsset.VIDEO_VERSION_LOOKUP`: version name to field-name stem. -/
def VIDEO_VERSION_LOOKUP : List (String × String) :=
  [("original", "resOriginal"),
   ("medium", "resVidMed"),
   ("thumb", "resVidSmall")]

/-- `PhotoAsset.item_type`: reads `fields['itemType']['value']` (raising when
absent, modelled by `none`) and classifies it through `ITEM_TYPES`, with
the sentinel `"unknown"` for unrecognised tags. -/
def item_type (m : RawRecord) : Option String :=
  match getFieldVal m "itemType" with
  | some (.str t) => some ((ITEM_TYPES.lookup t).getD "unknown")
  | some (.int _) => some "unknown"
  | _ => none

/-- `PhotoAsset.item_type_extension`: like `item_type` but through
`ITEM_TYPE_EXTENSIONS`. -/
def item_type_extension (m : RawRecord) : Option String :=
  match getFieldVal m "itemType" with
  | some (.str t) => some ((ITEM_TYPE_EXTENSIONS.lookup t).getD "unknown")
  | some (.int _) => some "unknown"
  | _ => none

/-- Python `s.find(sub) > -1`: substring containment anywhere in `s`. -/
def strContains (s sub : String) : Bool :=
  s.data.tails.any (fun t => sub.data.isPrefixOf t)

/-- `re.sub('[^0-9a-zA-Z]', '_', s)`: replace characters outside ASCII
alphanumerics with underscores. -/
def sanitizeId (s : String) : String :=
  String.mk (s.data.map (fun c =>
    if ('0' ≤ c ∧ c ≤ '9') ∨ ('a' ≤ c ∧ c ≤ 'z') ∨ ('A' ≤ c ∧ c ≤ 'Z') then c else '_'))

/-- The synthetic filename branch of `PhotoAsset.filename`: sanitize the
record name, truncate to 12 characters, append a dot and the kind's
canonical extension.  `none` models the raise when `itemType` is absent. -/
def syntheticFilename (m : RawRecord) : Option String :=
  (item_type_extension m).map (fun ext =>
    String.mk ((sanitizeId m.recordName).data.take 12) ++ "." ++ ext)

/-- `PhotoAsset.filename`: a present string value containing one of the
four literal extensions is returned verbatim; otherwise it is
base64-decoded as UTF-8; an absent name falls back to the synthetic name.
`none` models a raised exception (decode failure, or a non-string value,
or a missing `itemType` on the synthetic path). -/
def filename (m : RawRecord) : Option String :=
  match lookupField m "filenameEnc" with
  | some (some (.str v)) =>
      if strContains v ".png" then some v
      else if strContains v ".dng" then some v
      else if strContains v ".mp4" then some v
      else if strContains v ".gif" then some v
      else pyB64DecodeUtf8 v
  | some (some _) => none
  | _ => syntheticFilename m

/-! ## `PhotoAsset.versions` -/

/-- One resolved rendition, with `none` modelling Python `None`.
`width`/`height`/`type` hold the raw field values the code copies. -/
structure VersionDescriptor where
  filename : String
  width : Option FieldValue
  height : Option FieldValue
  size : Option Int
  type : Option FieldValue
  url : Option String
deriving DecidableEq

/-- The table the code selects by kind: the 3-entry video table for
`"movie"`, the 6-entry photo table otherwise. -/
def versionTable (kind : String) : List (String × String) :=
  if kind = "movie" then VIDEO_VERSION_LOOKUP else PHOTO_VERSION_LOOKUP

/-- Whether `prefix + "Res"` is a key of the master's fields
(the code's membership test `"%sRes" % prefix in fields`). -/
def resPresent (m : RawRecord) (pfx : String) : Bool :=
  (lookupField m (pfx ++ "Res")).isSome

/-- `size`/`url` of a version: read from the `Res` entry's value.
`none` overall models the raise on a value of unexpected shape. -/
def resSizeUrl (m : RawRecord) (pfx : String) : Option (Option Int × Option String) :=
  match lookupField m (pfx ++ "Res") with
  | some (some (.res sz url)) => some (some sz, some url)
  | some (some _) => none
  | _ => some (none, none)

/-- Python `s.lower()` restricted to ASCII letters (the code only
compares against the ASCII suffix `.heic`). -/
def pyLower (s : String) : String :=
  String.mk (s.data.map Char.toLower)

/-- Python `s.endswith(suffix)`. -/
def pyEndsWith (s suffix : String) : Bool :=
  suffix.data.isSuffixOf s.data

/-- `re.sub('\.[^.]+$', repl, s)`: when `s` has a final extension (a dot
followed by one or more non-dot characters at the end), replace that
dot-extension with `repl`; otherwise return `s` unchanged. -/
def rewriteExtension (repl s : String) : String :=
  let rev := s.data.reverse
  let ext := rev.takeWhile (fun c => c ≠ '.')
  if ext.length < rev.length ∧ 0 < ext.length then
    String.mk ((rev.drop (ext.length + 1)).reverse ++ repl.data)
  else s

/-- The live-photo filename rule: for an image-kind entity whose version
type is the QuickTime movie tag, rewrite the extension. -/
def liveFilename (kind f : String) (ty : Option FieldValue) : String :=
  if kind = "image" ∧ ty = some (.str "com.apple.quicktime-movie") then
    if pyEndsWith (pyLower f) ".heic" then rewriteExtension "_HEVC.MOV" f
    else rewriteExtension ".MOV" f
  else f

/-- Build one version descriptor for an included key (the body of the
loop in `PhotoAsset.versions`). -/
def mkVersion (m : RawRecord) (kind f : String) (pfx : String) : Option VersionDescriptor :=
  (resSizeUrl m pfx).map (fun su =>
    let ty := getFieldVal m (pfx ++ "FileType")
    { filename := liveFilename kind f ty
      width := getFieldVal m (pfx ++ "Width")
      height := getFieldVal m (pfx ++ "Height")
      size := su.1
      type := ty
      url := su.2 })

/-- The loop of `PhotoAsset.versions` over the selected table: a key is
included exactly when its `Res` field is present; `self.filename` is
evaluated per included key. -/
def buildVersions (m : RawRecord) (kind : String) :
    List (String × String) → Option (List (String × VersionDescriptor))
  | [] => some []
  | (key, pfx) :: rest =>
    if resPresent m pfx then do
      let f ← filename m
      let d ← mkVersion m kind f pfx
      let tail ← buildVersions m kind rest
      some ((key, d) :: tail)
    else buildVersions m kind rest

/-- The full (re)computation of `PhotoAsset.versions`: evaluate
`item_type`, select the table, run the loop. -/
def computeVersions (m : RawRecord) : Option (List (String × VersionDescriptor)) :=
  (item_type m).bind (fun kind => buildVersions m kind (versionTable kind))

/-- The `versions` property with its memoization guard
`if not self._versions:` — note an *empty* cached dict is falsy in
Python, so it triggers recomputation.  Returns the value produced, the
cache state afterwards, and whether a recomputation happened; `none`
models a raised exception during recomputation. -/
def versionsProperty (m : RawRecord) (cache : Option (List (String × VersionDescriptor))) :
    Option (List (String × VersionDescriptor)
            × Option (List (String × VersionDescriptor)) × Bool) :=
  match cache with
  | some v =>
      if v.isEmpty then (computeVersions m).map (fun w => (w, some w, true))
      else some (v, some v, false)
  | none => (computeVersions m).map (fun w => (w, some w, true))

/-- The observable outcome of `PhotoAsset.download`. -/
inductive DownloadResult where
  | noRequest
  | request (url : Option String)
deriving DecidableEq

/-- `PhotoAsset.download`: returns `None` (no retrieval request) when the
requested version is not a key of `versions`, otherwise issues a GET at
the version's `url`.  Outer `none` models a raise while resolving
`versions`. -/
def download (m : RawRecord) (cache : Option (List (String × VersionDescriptor)))
    (version : String) : Option (DownloadResult
      × Option (List (String × VersionDescriptor))) :=
  match versionsProperty m cache with
  | none => none
  | some (vs, cache2, _) =>
      match vs.lookup version with
      | none => some (.noRequest, cache2)
      | some d => some (.request d.url, cache2)

/-! ## Pagination (`PhotoAlbum.photos`) -/

/-- A reconciled entity: the master record paired with its asset record. -/
abbrev Entity := RawRecord × RawRecord

/-- `rec["fields"]["masterRef"]["value"]["recordName"]` of an asset
record; `none` models the raise when absent or of the wrong shape. -/
def assetRef (r : RawRecord) : Option String :=
  match getFieldVal r "masterRef" with
  | some (.ref name) => some name
  | _ => none

/-- The partition loop over one page's records: asset records are keyed
by their `masterRef` target (later records override earlier ones, as
with Python dict assignment — the association list keeps later records
in front), master records are collected in response order.  `none`
models the raise on an asset record without a readable `masterRef`. -/
def partitionRecords : List RawRecord → Option (List (String × RawRecord) × List RawRecord)
  | [] => some ([], [])
  | r :: rest =>
    if r.recordType = "CPLAsset" then
      match assetRef r with
      | some name =>
          (partitionRecords rest).map (fun p => (p.1 ++ [(name, r)], p.2))
      | none => none
    else if r.recordType = "CPLMaster" then
      (partitionRecords rest).map (fun p => (p.1, r :: p.2))
    else partitionRecords rest

/-- Reconciliation of one page: every master record, in response order,
is joined with the asset record whose `masterRef` names it.  `none`
models a raise: either a malformed asset record, or the `KeyError` on a
master with no matching asset. -/
def reconcile (recs : List RawRecord) : Option (List Entity) :=
  (partitionRecords recs).bind (fun p =>
    p.2.mapM (fun mr => (p.1.lookup mr.recordName).map (fun ar => (mr, ar))))

/-- The initial offset of `PhotoAlbum.photos`: `len(self) - 1` for
descending traversal, `0` otherwise. -/
def initialOffset (direction : String) (count : Int) : Int :=
  if direction = "DESCENDING" then count - 1 else 0

/-- Offset advance after a non-empty page of `n` master records. -/
def advanceOffset (direction : String) (offset : Int) (n : Nat) : Int :=
  if direction = "DESCENDING" then offset - n else offset + n

/-- What one attempt of `photos_request` plus response decoding can do:
fail in transport (inside the `try`), fail while parsing the response
body (outside the `try`), or produce a page of records. -/
inductive FetchOutcome where
  | transportFail
  | parseFail
  | page (recs : List RawRecord)
deriving DecidableEq

/-- The observable result of one trip around the `while True:` loop.
`next` carries the new offset, the new retry counter, the attempt number
passed to the handler on this trip (if it was invoked), and the entities
yielded; `raised` carries the handler attempt number likewise. -/
inductive StepResult where
  | next (offset : Int) (retries : Nat) (handlerCalled : Option Nat) (yielded : List Entity)
  | done
  | raised (handlerCalled : Option Nat)
deriving DecidableEq

/-- One trip around the loop of `PhotoAlbum.photos`, given the outcome of
this trip's fetch attempt.  The handler is modelled as a predicate on the
attempt counter: `true` means it returns normally (suppress and retry),
`false` means it raises.  A transport failure with a registered handler
increments the counter and consults the handler; without one it
propagates.  A parse failure happens outside the `try` and always
propagates.  A successful page resets the counter, reconciles, and either
terminates (no master records) or yields and advances the offset. -/
def photosStep (handler : Option (Nat → Bool)) (direction : String)
    (offset : Int) (retries : Nat) (outcome : FetchOutcome) : StepResult :=
  match outcome with
  | .transportFail =>
      match handler with
      | none => .raised none
      | some h =>
          if h (retries + 1) then .next offset (retries + 1) (some (retries + 1)) []
          else .raised (some (retries + 1))
  | .parseFail => .raised none
  | .page recs =>
      match reconcile recs with
      | none => .raised none
      | some es =>
          if es.isEmpty then .done
          else .next (advanceOffset direction offset es.length) 0 none es

/-- The end state of a run of the loop. -/
inductive RunResult where
  | finished (calls : List Nat) (yielded : List Entity)
  | errored (calls : List Nat) (yielded : List Entity)
  | outOfInput (offset : Int) (retries : Nat) (calls : List Nat) (yielded : List Entity)
deriving DecidableEq

/-- Run the loop of `PhotoAlbum.photos` against a list of per-attempt
fetch outcomes, accumulating handler invocations and yielded entities. -/
def photosRun (handler : Option (Nat → Bool)) (direction : String) :
    List FetchOutcome → Int → Nat → List Nat → List Entity → RunResult
  | [], offset, retries, calls, ys => .outOfInput offset retries calls ys
  | o :: os, offset, retries, calls, ys =>
    match photosStep handler direction offset retries o with
    | .done => .finished calls ys
    | .raised c => .errored (calls ++ c.toList) ys
    | .next off r c es => photosRun handler direction os off r (calls ++ c.toList) (ys ++ es)

/-- Iteration of `PhotoAlbum.photos` from the start: the cursor begins at
the direction-appropriate initial offset with the retry counter at zero. -/
def photosIterate (handler : Option (Nat → Bool)) (direction : String)
    (count : Int) (outcomes : List FetchOutcome) : RunResult :=
  photosRun handler direction outcomes (initialOffset direction count) 0 [] []

/-! ## Reconciliation and pagination lemmas -/

theorem partitionRecords_masters (recs : List RawRecord) :
    ∀ p, partitionRecords recs = some p →
      p.2 = recs.filter (fun r => r.recordType == "CPLMaster") := by
  induction recs with
  | nil =>
      intro p h
      simp only [partitionRecords, Option.some_inj] at h
      simp [← h, List.filter_nil]
  | cons r rest ih =>
      intro p h
      simp only [partitionRecords] at h
      by_cases hA : r.recordType = "CPLAsset"
      · rw [if_pos hA] at h
        cases href : assetRef r with
        | none => rw [href] at h; cases h
        | some name =>
            rw [href] at h
            rcases Option.map_eq_some'.mp h with ⟨q, hq, hpq⟩
            have : (r.recordType == "CPLMaster") = false := by
              simp [hA]
            simp [List.filter_cons, this, ← hpq, ih q hq]
      · rw [if_neg hA] at h
        by_cases hM : r.recordType = "CPLMaster"
        · rw [if_pos hM] at h
          rcases Option.map_eq_some'.mp h with ⟨q, hq, hpq⟩
          have : (r.recordType == "CPLMaster") = true := by simp [hM]
          simp [List.filter_cons, this, ← hpq, ih q hq]
        · rw [if_neg hM] at h
          have : (r.recordType == "CPLMaster") = false := by simp [hM]
          simp [List.filter_cons, this, ih p h]

theorem partitionRecords_assets (recs : List RawRecord) :
    ∀ p, partitionRecords recs = some p →
      ∀ k r, (k, r) ∈ p.1 → r ∈ recs ∧ r.recordType = "CPLAsset" ∧ assetRef r = some k := by
  induction recs with
  | nil =>
      intro p h k r hm
      simp only [partitionRecords, Option.some_inj] at h
      rw [← h] at hm
      simp at hm
  | cons x rest ih =>
      intro p h k r hm
      simp only [partitionRecords] at h
      by_cases hA : x.recordType = "CPLAsset"
      · rw [if_pos hA] at h
        cases href : assetRef x with
        | none => rw [href] at h; cases h
        | some name =>
            rw [href] at h
            rcases Option.map_eq_some'.mp h with ⟨q, hq, hpq⟩
            rw [← hpq] at hm
            simp only [List.mem_append, List.mem_singleton] at hm
            rcases hm with hm | hm
            · rcases ih q hq k r hm with ⟨h1, h2, h3⟩
              exact ⟨List.mem_cons_of_mem _ h1, h2, h3⟩
            · rcases Prod.mk.injEq .. ▸ hm with ⟨hk, hr⟩
              subst hk
              cases hr
              exact ⟨List.mem_cons_self .., hA, href⟩
      · rw [if_neg hA] at h
        by_cases hM : x.recordType = "CPLMaster"
        · rw [if_pos hM] at h
          rcases Option.map_eq_some'.mp h with ⟨q, hq, hpq⟩
          rw [← hpq] at hm
          rcases ih q hq k r hm with ⟨h1, h2, h3⟩
          exact ⟨List.mem_cons_of_mem _ h1, h2, h3⟩
        · rw [if_neg hM] at h
          rcases ih p h k r hm with ⟨h1, h2, h3⟩
          exact ⟨List.mem_cons_of_mem _ h1, h2, h3⟩

theorem lookup_mem {l : List (String × RawRecord)} {k : String} {v : RawRecord} :
    l.lookup k = some v → (k, v) ∈ l := by
  induction l with
  | nil => intro h; cases h
  | cons x rest ih =>
      intro h
      rcases x with ⟨a, b⟩
      rw [List.lookup_cons] at h
      by_cases hk : k = a
      · simp only [hk, beq_self_eq_true] at h
        cases h
        simp [hk]
      · have : (k == a) = false := by simp [hk]
        simp only [this] at h
        exact List.mem_cons_of_mem _ (ih h)

theorem mapM_join_spec (l : List (String × RawRecord)) :
    ∀ (ms : List RawRecord) (es : List Entity),
      ms.mapM (fun mr => (l.lookup mr.recordName).map (fun ar => (mr, ar))) = some es →
      es.map Prod.fst = ms ∧ ∀ e ∈ es, l.lookup e.1.recordName = some e.2 := by
  intro ms
  induction ms with
  | nil =>
      intro es h
      simp only [List.mapM_nil, pure, Option.some_inj] at h
      simp [← h]
  | cons mr rest ih =>
      intro es h
      rw [List.mapM_cons] at h
      simp only [Option.bind_eq_bind, Option.bind_eq_some, Option.pure_def,
        Option.some_inj] at h
      rcases h with ⟨e, he, tail, htail, hes⟩
      rcases Option.map_eq_some'.mp he with ⟨ar, har, hear⟩
      rcases ih tail htail with ⟨ih1, ih2⟩
      constructor
      · simp [← hes, ← hear, ih1]
      · intro x hx
        rw [← hes] at hx
        rcases List.mem_cons.mp hx with hx | hx
        · subst hx
          rw [← hear]
          exact har
        · exact ih2 x hx

theorem mapM_join_fails (l : List (String × RawRecord)) (ms : List RawRecord)
    (mr : RawRecord) (hmr : mr ∈ ms) (hl : l.lookup mr.recordName = none) :
    ms.mapM (fun mr => (l.lookup mr.recordName).map (fun ar => (mr, ar))) = none := by
  induction ms with
  | nil => cases hmr
  | cons x rest ih =>
      rw [List.mapM_cons]
      rcases List.mem_cons.mp hmr with h | h
      · subst h
        simp only [hl, Option.map_none', Option.bind_eq_bind, Option.none_bind]
      · cases hx : (l.lookup x.recordName).map (fun ar => (x, ar)) with
        | none => simp only [hx, Option.bind_eq_bind, Option.none_bind]
        | some e =>
            simp only [hx, Option.bind_eq_bind, Option.some_bind, ih h, Option.none_bind]

theorem reconcile_spec (recs : List RawRecord) (es : List Entity)
    (h : reconcile recs = some es) :
    ∃ p, partitionRecords recs = some p ∧
      es.map Prod.fst = recs.filter (fun r => r.recordType == "CPLMaster") ∧
      ∀ e ∈ es, p.1.lookup e.1.recordName = some e.2 := by
  rcases Option.bind_eq_some.mp h with ⟨p, hp, hjoin⟩
  rcases mapM_join_spec p.1 p.2 es hjoin with ⟨h1, h2⟩
  exact ⟨p, hp, by rw [h1, partitionRecords_masters recs p hp], h2⟩

/-! ## Claims C1-C4: pagination and reconciliation -/

/-- C1: a successfully fetched and reconciled page with `n > 0` master
records yields exactly `n` entities, in master-record response order, and
advances the offset cursor by `+n` (ascending) or `-n` (descending);
descending traversal starts at `count - 1`, ascending at `0`. -/
theorem c1_page_yield_and_offset (handler : Option (Nat → Bool)) (direction : String)
    (offset count : Int) (retries : Nat) (recs : List RawRecord) (es : List Entity)
    (h : reconcile recs = some es) (hne : es ≠ []) :
    es.length = (recs.filter (fun r => r.recordType == "CPLMaster")).length ∧
    es.map Prod.fst = recs.filter (fun r => r.recordType == "CPLMaster") ∧
    photosStep handler direction offset retries (.page recs) =
      .next (advanceOffset direction offset es.length) 0 none es ∧
    (∀ off : Int, ∀ n : Nat, advanceOffset "DESCENDING" off n = off - n ∧
      advanceOffset "ASCENDING" off n = off + n) ∧
    initialOffset "DESCENDING" count = count - 1 ∧
    initialOffset "ASCENDING" count = 0 := by
  rcases reconcile_spec recs es h with ⟨p, hp, hmap, hlook⟩
  refine ⟨?_, hmap, ?_, ?_, ?_, ?_⟩
  · rw [← hmap, List.length_map]
  · simp only [photosStep, h]
    rw [if_neg (by simpa using hne)]
  · intro off n
    constructor
    · simp [advanceOffset]
    · simp [advanceOffset]
  · simp [initialOffset]
  · simp [initialOffset]

/-- An asset record joined to the master named `m1`. -/
def recA1 : RawRecord := ⟨"CPLAsset", "a1", [("masterRef", some (.ref "m1"))]⟩

/-- A master record named `m1`. -/
def recM1 : RawRecord := ⟨"CPLMaster", "m1", []⟩

/-- A master record named `m2`, with no asset in the example pages. -/
def recM2 : RawRecord := ⟨"CPLMaster", "m2", []⟩

/-- An asset record whose `masterRef` names `zz`, matching no master. -/
def recA2 : RawRecord := ⟨"CPLAsset", "a2", [("masterRef", some (.ref "zz"))]⟩

theorem c1_page_yield_and_offset_witness :
    reconcile [recA1, recM1] = some [(recM1, recA1)] ∧
    ([(recM1, recA1)] : List Entity) ≠ [] ∧
    (([(recM1, recA1)] : List Entity).length =
        ([recA1, recM1].filter (fun r => r.recordType == "CPLMaster")).length ∧
      ([(recM1, recA1)] : List Entity).map Prod.fst =
        [recA1, recM1].filter (fun r => r.recordType == "CPLMaster") ∧
      photosStep none "DESCENDING" 249 0 (.page [recA1, recM1]) =
        .next (advanceOffset "DESCENDING" 249 ([(recM1, recA1)] : List Entity).length)
          0 none [(recM1, recA1)] ∧
      (∀ off : Int, ∀ n : Nat, advanceOffset "DESCENDING" off n = off - n ∧
        advanceOffset "ASCENDING" off n = off + n) ∧
      initialOffset "DESCENDING" 250 = 250 - 1 ∧
      initialOffset "ASCENDING" 250 = 0) :=
  ⟨by decide, by decide,
    c1_page_yield_and_offset none "DESCENDING" 249 250 0 [recA1, recM1]
      [(recM1, recA1)] (by decide) (by decide)⟩

/-- C2: on a successfully fetched and reconciled page, iteration
terminates exactly when the page has zero master records — such a page
yields nothing and ends the run normally (`finished`, not `errored`) —
while a page with at least one master record continues the loop with
another request. -/
theorem c2_zero_master_termination (handler : Option (Nat → Bool)) (direction : String)
    (offset : Int) (retries : Nat) (recs : List RawRecord) (es : List Entity)
    (h : reconcile recs = some es) :
    (recs.filter (fun r => r.recordType == "CPLMaster") = [] →
      photosStep handler direction offset retries (.page recs) = .done ∧
      ∀ os calls ys, photosRun handler direction (.page recs :: os) offset retries calls ys =
        .finished calls ys) ∧
    (recs.filter (fun r => r.recordType == "CPLMaster") ≠ [] →
      es ≠ [] ∧
      photosStep handler direction offset retries (.page recs) =
        .next (advanceOffset direction offset es.length) 0 none es) := by
  rcases reconcile_spec recs es h with ⟨p, hp, hmap, hlook⟩
  constructor
  · intro hms
    have hes : es = [] := by
      have := hmap.trans hms
      simpa using this
    subst hes
    have hstep : photosStep handler direction offset retries (.page recs) = .done := by
      simp [photosStep, h]
    refine ⟨hstep, ?_⟩
    intro os calls ys
    simp [photosRun, hstep]
  · intro hms
    have hes : es ≠ [] := by
      intro hcon
      subst hcon
      exact hms (by simpa using hmap.symm)
    refine ⟨hes, ?_⟩
    simp only [photosStep, h]
    rw [if_neg (by simpa using hes)]

theorem c2_zero_master_termination_witness :
    reconcile ([recA2] : List RawRecord) = some [] ∧
    (([recA2] : List RawRecord).filter (fun r => r.recordType == "CPLMaster") = [] →
      photosStep none "ASCENDING" 7 0 (.page [recA2]) = .done ∧
      ∀ os calls ys, photosRun none "ASCENDING" (.page [recA2] :: os) 7 0 calls ys =
        .finished calls ys) ∧
    (([recA2] : List RawRecord).filter (fun r => r.recordType == "CPLMaster") ≠ [] →
      ([] : List Entity) ≠ [] ∧
      photosStep none "ASCENDING" 7 0 (.page [recA2]) =
        .next (advanceOffset "ASCENDING" 7 ([] : List Entity).length) 0 none []) :=
  ⟨by decide,
    (c2_zero_master_termination none "ASCENDING" 7 0 [recA2] [] (by decide)).1,
    (c2_zero_master_termination none "ASCENDING" 7 0 [recA2] [] (by decide)).2⟩

/-- C3 counterexample: with a retry handler registered that always
returns normally, a parse failure while decoding a page response is not
routed to the handler (no handler call is recorded) and terminates the
iteration as an error instead of being retried — `request.json()` sits
outside the `try` block. -/
theorem c3_parse_failure_counterexample :
    photosRun (some (fun _ => true)) "ASCENDING"
        [.parseFail, .page [recA1, recM1]] 0 0 [] [] = .errored [] [] := rfl

/-- C3 amended: a *transport* failure of the page request is routed to
the registered handler with an attempt counter incremented by one per
consecutive failure and reset to zero by each successful request, and the
identical request (same offset) is retried when the handler returns
normally; without a handler the failure propagates at once.  A *parse*
failure of the response body propagates immediately and terminates the
iteration even when a handler is registered. -/
theorem c3_retry_routing_amended (direction : String) (offset : Int) (retries : Nat) :
    (∀ h : Nat → Bool, h (retries + 1) = true →
      photosStep (some h) direction offset retries .transportFail =
        .next offset (retries + 1) (some (retries + 1)) []) ∧
    (∀ h : Nat → Bool, h (retries + 1) = false →
      photosStep (some h) direction offset retries .transportFail =
        .raised (some (retries + 1))) ∧
    photosStep none direction offset retries .transportFail = .raised none ∧
    (∀ handler, photosStep handler direction offset retries .parseFail = .raised none) ∧
    (∀ handler recs es, reconcile recs = some es → es ≠ [] →
      photosStep handler direction offset retries (.page recs) =
        .next (advanceOffset direction offset es.length) 0 none es) := by
  refine ⟨?_, ?_, rfl, fun handler => ?_, ?_⟩
  · intro h hh
    simp [photosStep, hh]
  · intro h hh
    simp [photosStep, hh]
  · cases handler <;> rfl
  · intro handler recs es h hne
    simp only [photosStep, h]
    rw [if_neg (by simpa using hne)]

theorem c3_retry_routing_amended_witness :
    ((fun _ : Nat => true) (3 + 1) = true →
      photosStep (some (fun _ => true)) "ASCENDING" 5 3 .transportFail =
        .next 5 (3 + 1) (some (3 + 1)) []) ∧
    ((fun _ : Nat => true) (3 + 1) = true) ∧
    reconcile [recA1, recM1] = some [(recM1, recA1)] ∧
    ([(recM1, recA1)] : List Entity) ≠ [] ∧
    photosStep (some (fun _ => true)) "ASCENDING" 5 3 (.page [recA1, recM1]) =
      .next (advanceOffset "ASCENDING" 5 ([(recM1, recA1)] : List Entity).length)
        0 none [(recM1, recA1)] :=
  ⟨(c3_retry_routing_amended "ASCENDING" 5 3).1 (fun _ => true), rfl, by decide, by decide,
    (c3_retry_routing_amended "ASCENDING" 5 3).2.2.2.2 (some (fun _ => true))
      [recA1, recM1] [(recM1, recA1)] (by decide) (by decide)⟩

/-- C4: in a reconciled page, a master record with no asset record in the
same page whose `masterRef` names it makes reconciliation fail (the
`KeyError` aborts the iteration as an error), while an asset record whose
`masterRef` names no master record of the page is silently dropped: the
page still reconciles and that asset is never part of a yielded entity. -/
theorem c4_master_asset_mismatch :
    (∀ recs p mr, partitionRecords recs = some p → mr ∈ p.2 →
      (∀ a ∈ recs, a.recordType = "CPLAsset" → assetRef a ≠ some mr.recordName) →
      reconcile recs = none ∧
      ∀ handler direction offset retries,
        photosStep handler direction offset retries (.page recs) = .raised none) ∧
    (∀ recs es a r1, reconcile recs = some es → a ∈ recs →
      a.recordType = "CPLAsset" → assetRef a = some r1 →
      (∀ mr ∈ recs.filter (fun r => r.recordType == "CPLMaster"), mr.recordName ≠ r1) →
      ∀ e ∈ es, e.2 ≠ a) := by
  constructor
  · intro recs p mr hp hmr hnone
    have hlook : p.1.lookup mr.recordName = none := by
      cases hl : p.1.lookup mr.recordName with
      | none => rfl
      | some v =>
          exfalso
          rcases partitionRecords_assets recs p hp mr.recordName v (lookup_mem hl) with
            ⟨hv1, hv2, hv3⟩
          exact hnone v hv1 hv2 hv3
    have hrec : reconcile recs = none := by
      simp only [reconcile, hp, Option.bind_eq_bind, Option.some_bind]
      exact mapM_join_fails p.1 p.2 mr hmr hlook
    exact ⟨hrec, fun handler direction offset retries => by simp [photosStep, hrec]⟩
  · intro recs es a r1 h ha haty href hnomaster e he hcon
    rcases reconcile_spec recs es h with ⟨p, hp, hmap, hlook⟩
    have hlk := hlook e he
    rw [hcon] at hlk
    rcases partitionRecords_assets recs p hp e.1.recordName a (lookup_mem hlk) with
      ⟨_, _, hrefa⟩
    have hr1 : r1 = e.1.recordName := by
      rw [href] at hrefa
      exact Option.some_inj.mp hrefa
    have he1 : e.1 ∈ recs.filter (fun r => r.recordType == "CPLMaster") := by
      rw [← hmap]
      exact List.mem_map_of_mem Prod.fst he
    exact hnomaster e.1 he1 hr1.symm

theorem c4_master_asset_mismatch_witness :
    partitionRecords [recA1, recM1, recM2] =
      some ([("m1", recA1)], [recM1, recM2]) ∧
    recM2 ∈ ([recM1, recM2] : List RawRecord) ∧
    reconcile [recA1, recM1, recM2] = none ∧
    photosStep none "ASCENDING" 0 0 (.page [recA1, recM1, recM2]) = .raised none ∧
    reconcile [recA1, recA2, recM1] = some [(recM1, recA1)] ∧
    ∀ e ∈ ([(recM1, recA1)] : List Entity), e.2 ≠ recA2 :=
  ⟨by decide, by decide,
    ((c4_master_asset_mismatch.1 [recA1, recM1, recM2] ([("m1", recA1)], [recM1, recM2])
      recM2 (by decide) (by decide) (by decide)).1),
    ((c4_master_asset_mismatch.1 [recA1, recM1, recM2] ([("m1", recA1)], [recM1, recM2])
      recM2 (by decide) (by decide) (by decide)).2 none "ASCENDING" 0 0),
    by decide,
    c4_master_asset_mismatch.2 [recA1, recA2, recM1] [(recM1, recA1)] recA2 "zz"
      (by decide) (by decide) (by decide) (by decide) (by decide)⟩

/-! ## Version-resolution lemmas -/

theorem mkVersion_spec (m : RawRecord) (kind f pfx : String) (d : VersionDescriptor)
    (h : mkVersion m kind f pfx = some d) :
    d.filename = liveFilename kind f (getFieldVal m (pfx ++ "FileType")) ∧
    d.width = getFieldVal m (pfx ++ "Width") ∧
    d.height = getFieldVal m (pfx ++ "Height") ∧
    d.type = getFieldVal m (pfx ++ "FileType") ∧
    resSizeUrl m pfx = some (d.size, d.url) := by
  rcases Option.map_eq_some'.mp h with ⟨su, hsu, hd⟩
  rw [← hd]
  exact ⟨rfl, rfl, rfl, rfl, by rw [hsu]⟩

theorem buildVersions_keys (m : RawRecord) (kind : String) :
    ∀ (table : List (String × String)) (vs : List (String × VersionDescriptor)),
      buildVersions m kind table = some vs →
      vs.map Prod.fst =
        table.filterMap (fun kp => if resPresent m kp.2 then some kp.1 else none) := by
  intro table
  induction table with
  | nil =>
      intro vs h
      simp only [buildVersions, Option.some_inj] at h
      simp [← h]
  | cons kp rest ih =>
      intro vs h
      rcases kp with ⟨key, pfx⟩
      simp only [buildVersions] at h
      by_cases hres : resPresent m pfx
      · rw [if_pos hres] at h
        simp only [Option.bind_eq_bind, Option.bind_eq_some] at h
        rcases h with ⟨f, hf, d, hd, tail, htail, hvs⟩
        simp only [Option.some_inj] at hvs
        simp [← hvs, List.filterMap_cons, hres, ih tail htail]
      · rw [if_neg hres] at h
        have : resPresent m pfx = false := by simpa using hres
        simp [List.filterMap_cons, this, ih vs h]

theorem buildVersions_mem (m : RawRecord) (kind : String) :
    ∀ (table : List (String × String)) (vs : List (String × VersionDescriptor)),
      buildVersions m kind table = some vs →
      ∀ key d, (key, d) ∈ vs →
        ∃ pfx f, (key, pfx) ∈ table ∧ resPresent m pfx = true ∧
          filename m = some f ∧ mkVersion m kind f pfx = some d := by
  intro table
  induction table with
  | nil =>
      intro vs h key d hm
      simp only [buildVersions, Option.some_inj] at h
      rw [← h] at hm
      simp at hm
  | cons kp rest ih =>
      intro vs h key d hm
      rcases kp with ⟨key0, pfx0⟩
      simp only [buildVersions] at h
      by_cases hres : resPresent m pfx0
      · rw [if_pos hres] at h
        simp only [Option.bind_eq_bind, Option.bind_eq_some] at h
        rcases h with ⟨f, hf, d0, hd0, tail, htail, hvs⟩
        simp only [Option.some_inj] at hvs
        rw [← hvs] at hm
        rcases List.mem_cons.mp hm with hm | hm
        · rcases Prod.mk.injEq .. ▸ hm with ⟨hk, hd⟩
          subst hk
          cases hd
          exact ⟨pfx0, f, List.mem_cons_self .., hres, hf, hd0⟩
        · rcases ih tail htail key d hm with ⟨pfx, f1, h1, h2, h3, h4⟩
          exact ⟨pfx, f1, List.mem_cons_of_mem _ h1, h2, h3, h4⟩
      · rw [if_neg hres] at h
        rcases ih vs h key d hm with ⟨pfx, f1, h1, h2, h3, h4⟩
        exact ⟨pfx, f1, List.mem_cons_of_mem _ h1, h2, h3, h4⟩

theorem buildVersions_included (m : RawRecord) (kind : String) :
    ∀ (table : List (String × String)) (vs : List (String × VersionDescriptor)),
      buildVersions m kind table = some vs →
      ∀ key pfx, (key, pfx) ∈ table → resPresent m pfx = true →
        ∃ f d, filename m = some f ∧ mkVersion m kind f pfx = some d ∧ (key, d) ∈ vs := by
  intro table
  induction table with
  | nil =>
      intro vs h key pfx hm
      simp at hm
  | cons kp rest ih =>
      intro vs h key pfx hm hres
      rcases kp with ⟨key0, pfx0⟩
      simp only [buildVersions] at h
      rcases List.mem_cons.mp hm with hm | hm
      · rcases Prod.mk.injEq .. ▸ hm with ⟨hk, hp⟩
        subst hk
        subst hp
        rw [if_pos hres] at h
        simp only [Option.bind_eq_bind, Option.bind_eq_some] at h
        rcases h with ⟨f, hf, d0, hd0, tail, htail, hvs⟩
        simp only [Option.some_inj] at hvs
        exact ⟨f, d0, hf, hd0, by rw [← hvs]; exact List.mem_cons_self ..⟩
      · by_cases hres0 : resPresent m pfx0
        · rw [if_pos hres0] at h
          simp only [Option.bind_eq_bind, Option.bind_eq_some] at h
          rcases h with ⟨f, hf, d0, hd0, tail, htail, hvs⟩
          simp only [Option.some_inj] at hvs
          rcases ih tail htail key pfx hm hres with ⟨f1, d1, h1, h2, h3⟩
          exact ⟨f1, d1, h1, h2, by rw [← hvs]; exact List.mem_cons_of_mem _ h3⟩
        · rw [if_neg hres0] at h
          exact ih vs h key pfx hm hres

theorem computeVersions_build (m : RawRecord) (kind : String)
    (vs : List (String × VersionDescriptor))
    (hk : item_type m = some kind) (h : computeVersions m = some vs) :
    buildVersions m kind (versionTable kind) = some vs := by
  simp only [computeVersions, hk, Option.bind_eq_bind, Option.some_bind] at h
  exact h

/-! ## Claims C5-C6: version resolution -/

/-- C5: the versions mapping has a key exactly for the version names of
the kind-appropriate table (3-entry video table for movie entities,
6-entry photo table otherwise) whose `prefix ++ "Res"` field is present
on the master record; each included descriptor reads width/height/type
from the prefixed fields with `none` for an individually missing field
(`getFieldVal` is `none` exactly on missing fields) and size/url from the
`Res` entry; no entry exists for a version whose resolution field is
absent. -/
theorem c5_version_keys_and_nulls (m : RawRecord) (kind : String)
    (vs : List (String × VersionDescriptor))
    (hk : item_type m = some kind) (h : computeVersions m = some vs) :
    versionTable kind =
      (if kind = "movie" then VIDEO_VERSION_LOOKUP else PHOTO_VERSION_LOOKUP) ∧
    VIDEO_VERSION_LOOKUP.length = 3 ∧ PHOTO_VERSION_LOOKUP.length = 6 ∧
    vs.map Prod.fst = (versionTable kind).filterMap
      (fun kp => if resPresent m kp.2 then some kp.1 else none) ∧
    ∀ key pfx, (key, pfx) ∈ versionTable kind → resPresent m pfx = true →
      ∃ f d, filename m = some f ∧ (key, d) ∈ vs ∧
        d.width = getFieldVal m (pfx ++ "Width") ∧
        d.height = getFieldVal m (pfx ++ "Height") ∧
        d.type = getFieldVal m (pfx ++ "FileType") ∧
        resSizeUrl m pfx = some (d.size, d.url) := by
  have hb := computeVersions_build m kind vs hk h
  refine ⟨rfl, rfl, rfl, buildVersions_keys m kind _ vs hb, ?_⟩
  intro key pfx hmem hres
  rcases buildVersions_included m kind _ vs hb key pfx hmem hres with ⟨f, d, hf, hmk, hin⟩
  rcases mkVersion_spec m kind f pfx d hmk with ⟨h1, h2, h3, h4, h5⟩
  exact ⟨f, d, hf, hin, h2, h3, h4, h5⟩

/-- An image master with an `original` resolution (width present, height
missing) and a `thumb` resolution entry carrying no value. -/
def mV : RawRecord := ⟨"CPLMaster", "rv",
  [("itemType", some (.str "public.jpeg")),
   ("filenameEnc", some (.str "a.png")),
   ("resOriginalRes", some (.res 10 "uO")),
   ("resOriginalWidth", some (.int 4)),
   ("resJPEGThumbRes", none)]⟩

/-- The versions computed for `mV`. -/
def vsV : List (String × VersionDescriptor) :=
  [("original", ⟨"a.png", some (.int 4), none, some 10, none, some "uO"⟩),
   ("thumb", ⟨"a.png", none, none, none, none, none⟩)]

theorem c5_version_keys_and_nulls_witness :
    item_type mV = some "image" ∧
    computeVersions mV = some vsV ∧
    (versionTable "image" =
      (if "image" = "movie" then VIDEO_VERSION_LOOKUP else PHOTO_VERSION_LOOKUP) ∧
    VIDEO_VERSION_LOOKUP.length = 3 ∧ PHOTO_VERSION_LOOKUP.length = 6 ∧
    vsV.map Prod.fst = (versionTable "image").filterMap
      (fun kp => if resPresent mV kp.2 then some kp.1 else none) ∧
    ∀ key pfx, (key, pfx) ∈ versionTable "image" → resPresent mV pfx = true →
      ∃ f d, filename mV = some f ∧ (key, d) ∈ vsV ∧
        d.width = getFieldVal mV (pfx ++ "Width") ∧
        d.height = getFieldVal mV (pfx ++ "Height") ∧
        d.type = getFieldVal mV (pfx ++ "FileType") ∧
        resSizeUrl mV pfx = some (d.size, d.url)) :=
  ⟨rfl, rfl, c5_version_keys_and_nulls mV "image" vsV rfl rfl⟩

/-- C6: for an image-kind entity, a resolved version whose type tag is
the QuickTime movie tag has its filename extension rewritten — to
`_HEVC.MOV` when the (lower-cased) base filename ends in `.heic`, and to
`.MOV` otherwise (`rewriteExtension` is the `\.[^.]+$` substitution) —
while versions with any other type tag, and every version of a non-image
entity, keep the base filename unmodified. -/
theorem c6_live_photo_extension (m : RawRecord)
    (vs : List (String × VersionDescriptor)) (h : computeVersions m = some vs) :
    (item_type m = some "image" →
      ∀ key d, (key, d) ∈ vs →
        ∃ f, filename m = some f ∧
          (d.type = some (.str "com.apple.quicktime-movie") →
            d.filename = if pyEndsWith (pyLower f) ".heic"
              then rewriteExtension "_HEVC.MOV" f
              else rewriteExtension ".MOV" f) ∧
          (d.type ≠ some (.str "com.apple.quicktime-movie") → d.filename = f)) ∧
    (∀ kind, item_type m = some kind → kind ≠ "image" →
      ∀ key d, (key, d) ∈ vs → ∃ f, filename m = some f ∧ d.filename = f) := by
  constructor
  · intro hk key d hm
    have hb := computeVersions_build m "image" vs hk h
    rcases buildVersions_mem m "image" _ vs hb key d hm with ⟨pfx, f, _, _, hf, hmk⟩
    rcases mkVersion_spec m "image" f pfx d hmk with ⟨h1, _, _, h4, _⟩
    refine ⟨f, hf, ?_, ?_⟩
    · intro hty
      rw [h1, ← h4]
      unfold liveFilename
      rw [if_pos ⟨rfl, hty⟩]
    · intro hty
      rw [h1, ← h4]
      unfold liveFilename
      rw [if_neg]
      intro hcon
      exact hty hcon.2
  · intro kind hk hkind key d hm
    have hb := computeVersions_build m kind vs hk h
    rcases buildVersions_mem m kind _ vs hb key d hm with ⟨pfx, f, _, _, hf, hmk⟩
    rcases mkVersion_spec m kind f pfx d hmk with ⟨h1, _, _, _, _⟩
    refine ⟨f, hf, ?_⟩
    rw [h1]
    unfold liveFilename
    rw [if_neg]
    intro hcon
    exact hkind hcon.1

/-- An image (HEIC) master whose stored name decodes to `img.heic`, with
a still `original` version and a QuickTime live-motion component. -/
def m6 : RawRecord := ⟨"CPLMaster", "r6",
  [("itemType", some (.str "public.heic")),
   ("filenameEnc", some (.str (pyB64EncodeUtf8 "img.heic"))),
   ("resOriginalRes", some (.res 9 "uo")),
   ("resOriginalFileType", some (.str "public.heic")),
   ("resOriginalVidComplRes", some (.res 5 "uv")),
   ("resOriginalVidComplFileType", some (.str "com.apple.quicktime-movie"))]⟩

/-- The versions computed for `m6`. -/
def vs6 : List (String × VersionDescriptor) :=
  [("original", ⟨"img.heic", none, none, some 9, some (.str "public.heic"), some "uo"⟩),
   ("originalVideo", ⟨"img_HEVC.MOV", none, none, some 5,
      some (.str "com.apple.quicktime-movie"), some "uv"⟩)]

theorem c6_live_photo_extension_witness :
    computeVersions m6 = some vs6 ∧
    ((item_type m6 = some "image" →
      ∀ key d, (key, d) ∈ vs6 →
        ∃ f, filename m6 = some f ∧
          (d.type = some (.str "com.apple.quicktime-movie") →
            d.filename = if pyEndsWith (pyLower f) ".heic"
              then rewriteExtension "_HEVC.MOV" f
              else rewriteExtension ".MOV" f) ∧
          (d.type ≠ some (.str "com.apple.quicktime-movie") → d.filename = f)) ∧
    (∀ kind, item_type m6 = some kind → kind ≠ "image" →
      ∀ key d, (key, d) ∈ vs6 → ∃ f, filename m6 = some f ∧ d.filename = f)) :=
  ⟨by decide, c6_live_photo_extension m6 vs6 (by decide)⟩

/-! ## Claims C8 and C10: memoization and download -/

/-- An image master with no resolution fields at all: its computed
versions mapping is empty. -/
def mEmpty : RawRecord := ⟨"CPLMaster", "re", [("itemType", some (.str "public.jpeg"))]⟩

/-- C8 counterexample: for an entity whose versions mapping computes to
the empty mapping, the first access stores the empty mapping, yet the
second access — with that cache in place — recomputes (recomputation flag
`true`) because `if not self._versions:` treats an empty dict as unset.
So `versions` is not computed at most once for every entity. -/
theorem c8_empty_versions_counterexample :
    versionsProperty mEmpty none = some ([], some [], true) ∧
    versionsProperty mEmpty (some []) = some ([], some [], true) := ⟨rfl, rfl⟩

/-- C8 amended: the versions mapping is memoized after the first access
whenever the computed mapping is non-empty — any later access returns the
cached mapping without recomputation; an entity whose mapping computes
empty instead recomputes on every access, though each recomputation
returns the same result of `computeVersions`. -/
theorem c8_versions_memoized_amended (m : RawRecord)
    (v w : List (String × VersionDescriptor)) :
    (computeVersions m = some v → versionsProperty m none = some (v, some v, true)) ∧
    (v ≠ [] → versionsProperty m (some v) = some (v, some v, false)) ∧
    (computeVersions m = some w → versionsProperty m (some []) = some (w, some w, true)) := by
  refine ⟨?_, ?_, ?_⟩
  · intro hv
    simp [versionsProperty, hv]
  · intro hv
    simp [versionsProperty, List.isEmpty_iff, hv]
  · intro hw
    simp [versionsProperty, hw]

theorem c8_versions_memoized_amended_witness :
    computeVersions mV = some vsV ∧ vsV ≠ [] ∧
    versionsProperty mV none = some (vsV, some vsV, true) ∧
    versionsProperty mV (some vsV) = some (vsV, some vsV, false) ∧
    versionsProperty mV (some []) = some (vsV, some vsV, true) :=
  ⟨rfl, by decide,
    (c8_versions_memoized_amended mV vsV vsV).1 rfl,
    (c8_versions_memoized_amended mV vsV vsV).2.1 (by decide),
    (c8_versions_memoized_amended mV vsV vsV).2.2 rfl⟩

/-- C10: calling `download` with a version name that is not a key of the
entity's resolved versions mapping returns `None` (`noRequest`: no
retrieval request is issued) instead of raising. -/
theorem c10_download_missing_version (m : RawRecord)
    (cache : Option (List (String × VersionDescriptor)))
    (vs : List (String × VersionDescriptor))
    (cache2 : Option (List (String × VersionDescriptor))) (b : Bool) (version : String)
    (hv : versionsProperty m cache = some (vs, cache2, b))
    (hnk : vs.lookup version = none) :
    download m cache version = some (.noRequest, cache2) := by
  simp [download, hv, hnk]

theorem c10_download_missing_version_witness :
    versionsProperty mV none = some (vsV, some vsV, true) ∧
    vsV.lookup "medium" = none ∧
    download mV none "medium" = some (.noRequest, some vsV) :=
  ⟨rfl, rfl,
    c10_download_missing_version mV none vsV (some vsV) true "medium" rfl rfl⟩

/-! ## Base64 and UTF-8 round-trip lemmas -/

theorem b64Index_b64Char : ∀ n, n < 64 → b64Index (b64Char n) = some n := by decide

theorem b64Char_ne_dot : ∀ n, n < 64 → b64Char n ≠ '.' := by decide

theorem b64EncodeBytes_chars : ∀ (bs : List Nat), (∀ x ∈ bs, x < 256) →
    ∀ c ∈ b64EncodeBytes bs, ((b64Index c).isSome || c = '=') = true
  | [] => by
      intro _ c hc
      simp [b64EncodeBytes] at hc
  | [a] => by
      intro h c hc
      have ha : a < 256 := h a (by simp)
      simp only [b64EncodeBytes, List.mem_cons, List.not_mem_nil, or_false] at hc
      rcases hc with hc | hc | hc | hc
      · subst hc; simp [b64Index_b64Char (a / 4) (by omega)]
      · subst hc; simp [b64Index_b64Char (a % 4 * 16) (by omega)]
      · subst hc; simp
      · subst hc; simp
  | [a, b] => by
      intro h c hc
      have ha : a < 256 := h a (by simp)
      have hb : b < 256 := h b (by simp)
      simp only [b64EncodeBytes, List.mem_cons, List.not_mem_nil, or_false] at hc
      rcases hc with hc | hc | hc | hc
      · subst hc; simp [b64Index_b64Char (a / 4) (by omega)]
      · subst hc; simp [b64Index_b64Char (a % 4 * 16 + b / 16) (by omega)]
      · subst hc; simp [b64Index_b64Char (b % 16 * 4) (by omega)]
      · subst hc; simp
  | a :: b :: c :: rest => by
      intro h x hx
      have ha : a < 256 := h a (by simp)
      have hb : b < 256 := h b (by simp)
      have hc : c < 256 := h c (by simp)
      simp only [b64EncodeBytes, List.mem_cons] at hx
      rcases hx with hx | hx | hx | hx | hx
      · subst hx; simp [b64Index_b64Char (a / 4) (by omega)]
      · subst hx; simp [b64Index_b64Char (a % 4 * 16 + b / 16) (by omega)]
      · subst hx; simp [b64Index_b64Char (b % 16 * 4 + c / 64) (by omega)]
      · subst hx; simp [b64Index_b64Char (c % 64) (by omega)]
      · exact b64EncodeBytes_chars rest (fun y hy => h y (by simp [hy])) x hx

theorem b64EncodeBytes_ne_eq_of_lt : ∀ (a : Nat), a < 64 → b64Char a ≠ '=' := by decide

theorem b64DecodeQuads_encode : ∀ (bs : List Nat), (∀ x ∈ bs, x < 256) →
    b64DecodeQuads (b64EncodeBytes bs) = some bs
  | [] => by intro _; rfl
  | [a] => by
      intro h
      have ha : a < 256 := h a (by simp)
      simp only [b64EncodeBytes, b64DecodeQuads]
      rw [if_pos (by simp)]
      rw [b64Index_b64Char _ (by omega : a / 4 < 64),
        b64Index_b64Char _ (by omega : a % 4 * 16 < 64)]
      simp only [Option.bind_eq_bind, Option.some_bind, Option.some_inj, List.cons.injEq,
        and_true]
      omega
  | [a, b] => by
      intro h
      have ha : a < 256 := h a (by simp)
      have hb : b < 256 := h b (by simp)
      simp only [b64EncodeBytes, b64DecodeQuads]
      rw [if_neg (by
        intro hcon
        exact b64EncodeBytes_ne_eq_of_lt (b % 16 * 4) (by omega) hcon.1)]
      rw [if_pos (by simp)]
      rw [b64Index_b64Char _ (by omega : a / 4 < 64),
        b64Index_b64Char _ (by omega : a % 4 * 16 + b / 16 < 64),
        b64Index_b64Char _ (by omega : b % 16 * 4 < 64)]
      simp only [Option.bind_eq_bind, Option.some_bind, Option.some_inj, List.cons.injEq,
        and_true]
      omega
  | a :: b :: c :: rest => by
      intro h
      have ha : a < 256 := h a (by simp)
      have hb : b < 256 := h b (by simp)
      have hc : c < 256 := h c (by simp)
      simp only [b64EncodeBytes, b64DecodeQuads]
      rw [if_neg (by
        intro hcon
        exact b64EncodeBytes_ne_eq_of_lt (b % 16 * 4 + c / 64) (by omega) hcon.1)]
      rw [if_neg (by
        intro hcon
        exact b64EncodeBytes_ne_eq_of_lt (c % 64) (by omega) hcon.1)]
      rw [b64Index_b64Char _ (by omega : a / 4 < 64),
        b64Index_b64Char _ (by omega : a % 4 * 16 + b / 16 < 64),
        b64Index_b64Char _ (by omega : b % 16 * 4 + c / 64 < 64),
        b64Index_b64Char _ (by omega : c % 64 < 64),
        b64DecodeQuads_encode rest (fun y hy => h y (by simp [hy]))]
      simp only [Option.bind_eq_bind, Option.some_bind, Option.some_inj, List.cons.injEq]
      exact ⟨by omega, by omega, by omega, trivial⟩

theorem b64_roundtrip (bs : List Nat) (h : ∀ x ∈ bs, x < 256) :
    b64DecodeBytes (b64EncodeBytes bs) = some bs := by
  unfold b64DecodeBytes
  rw [List.filter_eq_self.mpr (b64EncodeBytes_chars bs h)]
  exact b64DecodeQuads_encode bs h

theorem utf8EncodeCP_bytes (n : Nat) (h : n < 0x110000) : ∀ x ∈ utf8EncodeCP n, x < 256 := by
  intro x hx
  unfold utf8EncodeCP at hx
  by_cases h1 : n < 0x80
  · rw [if_pos h1] at hx
    simp at hx
    omega
  · rw [if_neg h1] at hx
    by_cases h2 : n < 0x800
    · rw [if_pos h2] at hx
      simp at hx
      rcases hx with hx | hx <;> omega
    · rw [if_neg h2] at hx
      by_cases h3 : n < 0x10000
      · rw [if_pos h3] at hx
        simp at hx
        rcases hx with hx | hx | hx <;> omega
      · rw [if_neg h3] at hx
        simp at hx
        rcases hx with hx | hx | hx | hx <;> omega

theorem utf8DecodeOne_ascii (n : Nat) (h1 : n < 0x80) (l : List Nat) :
    utf8DecodeOne n l = some (n, 0) := by
  unfold utf8DecodeOne
  rw [if_pos h1]

theorem utf8DecodeOne_two (n : Nat) (h1 : ¬n < 0x80) (h2 : n < 0x800) (l : List Nat) :
    utf8DecodeOne (0xC0 + n / 64) ((0x80 + n % 64) :: l) = some (n, 1) := by
  unfold utf8DecodeOne
  rw [if_neg (by omega), if_pos (by omega : 0xC0 + n / 64 < 0xE0)]
  dsimp only
  rw [if_pos (show 0xC2 ≤ 0xC0 + n / 64 ∧ 0x80 ≤ 0x80 + n % 64 ∧ 0x80 + n % 64 < 0xC0
    by omega)]
  have hX : (0xC0 + n / 64 - 0xC0) * 64 + (0x80 + n % 64 - 0x80) = n := by omega
  rw [hX]

theorem utf8DecodeOne_three (n : Nat) (h2 : ¬n < 0x800) (h3 : n < 0x10000)
    (hv : n < 0xD800 ∨ 0xdfff < n) (l : List Nat) :
    utf8DecodeOne (0xE0 + n / 4096) ((0x80 + n / 64 % 64) :: (0x80 + n % 64) :: l) =
      some (n, 2) := by
  unfold utf8DecodeOne
  rw [if_neg (by omega), if_neg (by omega : ¬(0xE0 + n / 4096 < 0xE0)),
    if_pos (by omega : 0xE0 + n / 4096 < 0xF0)]
  dsimp only
  rw [if_pos (by refine ⟨⟨⟨by omega, by omega⟩, by omega, by omega⟩, by omega, by omega⟩)]
  have hX : (0xE0 + n / 4096 - 0xE0) * 4096 + (0x80 + n / 64 % 64 - 0x80) * 64 +
      (0x80 + n % 64 - 0x80) = n := by omega
  rw [hX]

theorem utf8DecodeOne_four (n : Nat) (h3 : ¬n < 0x10000) (h4 : n < 0x110000) (l : List Nat) :
    utf8DecodeOne (0xF0 + n / 262144)
      ((0x80 + n / 4096 % 64) :: (0x80 + n / 64 % 64) :: (0x80 + n % 64) :: l) =
      some (n, 3) := by
  unfold utf8DecodeOne
  rw [if_neg (by omega), if_neg (by omega : ¬(0xF0 + n / 262144 < 0xE0)),
    if_neg (by omega : ¬(0xF0 + n / 262144 < 0xF0))]
  dsimp only
  rw [if_pos (by
    refine ⟨⟨by omega, ⟨by omega, by omega⟩, ⟨by omega, by omega⟩, by omega, by omega⟩,
      by omega, by omega⟩)]
  have hX : (0xF0 + n / 262144 - 0xF0) * 262144 + (0x80 + n / 4096 % 64 - 0x80) * 4096 +
      (0x80 + n / 64 % 64 - 0x80) * 64 + (0x80 + n % 64 - 0x80) = n := by omega
  rw [hX]

theorem utf8DecodeLoop_encode : ∀ (cps : List Nat) (fuel : Nat),
    (∀ n ∈ cps, n.isValidChar) → (cps.flatMap utf8EncodeCP).length ≤ fuel →
    utf8DecodeLoop fuel (cps.flatMap utf8EncodeCP) = some cps
  | [], fuel => by
      intro _ _
      rw [List.flatMap_nil]
      cases fuel <;> rfl
  | n :: cps, fuel => by
      intro h hfuel
      have hv : n.isValidChar := h n (by simp)
      have hv2 : n < 0xD800 ∨ (0xdfff < n ∧ n < 0x110000) := hv
      have htail : ∀ x ∈ cps, x.isValidChar := fun y hy => h y (by simp [hy])
      rw [List.flatMap_cons] at hfuel ⊢
      by_cases h1 : n < 0x80
      · have he : utf8EncodeCP n = [n] := by
          unfold utf8EncodeCP
          rw [if_pos h1]
        rw [he] at hfuel ⊢
        simp only [List.cons_append, List.nil_append] at hfuel ⊢
        simp only [List.length_cons] at hfuel
        cases fuel with
        | zero => omega
        | succ f =>
            simp only [utf8DecodeLoop, utf8DecodeOne_ascii n h1, List.drop_zero]
            simp only [utf8DecodeLoop_encode cps f htail (by omega), Option.map_some']
      · by_cases h2 : n < 0x800
        · have he : utf8EncodeCP n = [0xC0 + n / 64, 0x80 + n % 64] := by
            unfold utf8EncodeCP
            rw [if_neg h1, if_pos h2]
          rw [he] at hfuel ⊢
          simp only [List.cons_append, List.nil_append] at hfuel ⊢
          simp only [List.length_cons] at hfuel
          cases fuel with
          | zero => omega
          | succ f =>
              simp only [utf8DecodeLoop, utf8DecodeOne_two n h1 h2]
              rw [show ((0x80 + n % 64) :: cps.flatMap utf8EncodeCP).drop 1 =
                cps.flatMap utf8EncodeCP from rfl]
              simp only [utf8DecodeLoop_encode cps f htail (by omega), Option.map_some']
        · by_cases h3 : n < 0x10000
          · have he : utf8EncodeCP n =
                [0xE0 + n / 4096, 0x80 + n / 64 % 64, 0x80 + n % 64] := by
              unfold utf8EncodeCP
              rw [if_neg h1, if_neg h2, if_pos h3]
            rw [he] at hfuel ⊢
            simp only [List.cons_append, List.nil_append] at hfuel ⊢
            simp only [List.length_cons] at hfuel
            cases fuel with
            | zero => omega
            | succ f =>
                simp only [utf8DecodeLoop, utf8DecodeOne_three n h2 h3 (by omega)]
                rw [show ((0x80 + n / 64 % 64) :: (0x80 + n % 64) ::
                  cps.flatMap utf8EncodeCP).drop 2 = cps.flatMap utf8EncodeCP from rfl]
                simp only [utf8DecodeLoop_encode cps f htail (by omega), Option.map_some']
          · have he : utf8EncodeCP n =
                [0xF0 + n / 262144, 0x80 + n / 4096 % 64, 0x80 + n / 64 % 64, 0x80 + n % 64] := by
              unfold utf8EncodeCP
              rw [if_neg h1, if_neg h2, if_neg h3]
            rw [he] at hfuel ⊢
            simp only [List.cons_append, List.nil_append] at hfuel ⊢
            simp only [List.length_cons] at hfuel
            cases fuel with
            | zero => omega
            | succ f =>
                simp only [utf8DecodeLoop, utf8DecodeOne_four n h3 (by omega)]
                rw [show ((0x80 + n / 4096 % 64) :: (0x80 + n / 64 % 64) :: (0x80 + n % 64) ::
                  cps.flatMap utf8EncodeCP).drop 3 = cps.flatMap utf8EncodeCP from rfl]
                simp only [utf8DecodeLoop_encode cps f htail (by omega), Option.map_some']

theorem utf8DecodeCPs_flat (cps : List Nat) (h : ∀ n ∈ cps, n.isValidChar) :
    utf8DecodeCPs (cps.flatMap utf8EncodeCP) = some cps :=
  utf8DecodeLoop_encode cps (cps.flatMap utf8EncodeCP).length h (Nat.le_refl _)

theorem cpToChar_toNat (c : Char) : cpToChar c.toNat = some c := by
  unfold cpToChar
  rw [if_pos (show c.toNat.isValidChar from c.valid), Char.ofNat_toNat]

theorem mapM_cpToChar : ∀ (cs : List Char), (cs.map Char.toNat).mapM cpToChar = some cs
  | [] => rfl
  | c :: rest => by
      rw [List.map_cons, List.mapM_cons, cpToChar_toNat, mapM_cpToChar rest]
      rfl

theorem utf8_roundtrip (s : String) : utf8DecodeStr (utf8Encode s) = some s := by
  unfold utf8DecodeStr utf8Encode
  have hflat : s.data.flatMap (fun c => utf8EncodeCP c.toNat) =
      (s.data.map Char.toNat).flatMap utf8EncodeCP := by
    rw [List.flatMap_map]
  rw [hflat, utf8DecodeCPs_flat _ (by
    intro x hx
    rcases List.mem_map.mp hx with ⟨c, _, hc⟩
    rw [← hc]
    exact c.valid)]
  simp only [Option.bind_eq_bind, Option.some_bind, mapM_cpToChar, Option.map_some']

theorem utf8Encode_bytes (s : String) : ∀ x ∈ utf8Encode s, x < 256 := by
  intro x hx
  unfold utf8Encode at hx
  rcases List.mem_flatMap.mp hx with ⟨c, _, hxc⟩
  have hc : c.toNat < 0xD800 ∨ (0xdfff < c.toNat ∧ c.toNat < 0x110000) := c.valid
  exact utf8EncodeCP_bytes c.toNat (by omega) x hxc

theorem pyB64_roundtrip (s : String) : pyB64DecodeUtf8 (pyB64EncodeUtf8 s) = some s := by
  unfold pyB64DecodeUtf8 pyB64EncodeUtf8
  rw [show (String.mk (b64EncodeBytes (utf8Encode s))).data =
    b64EncodeBytes (utf8Encode s) from rfl]
  rw [b64_roundtrip _ (utf8Encode_bytes s)]
  simp only [Option.bind_eq_bind, Option.some_bind]
  exact utf8_roundtrip s

theorem b64Index_dot : b64Index '.' = none := by decide

theorem pyB64Encode_no_dot (s : String) : ∀ c ∈ (pyB64EncodeUtf8 s).data, c ≠ '.' := by
  intro c hc hdot
  have h := b64EncodeBytes_chars (utf8Encode s) (utf8Encode_bytes s) c hc
  subst hdot
  have : ¬ (((b64Index '.').isSome || '.' = '=') = true) := by decide
  exact this h

theorem strContains_eq_false_of_no_dot (v : String) (hv : ∀ c ∈ v.data, c ≠ '.')
    (sub : String) (t : List Char) (hsub : sub.data = '.' :: t) :
    strContains v sub = false := by
  rw [← Bool.not_eq_true]
  intro hcon
  unfold strContains at hcon
  rcases List.any_eq_true.mp hcon with ⟨tl, htl, hpref⟩
  rw [hsub] at hpref
  cases tl with
  | nil => simp [List.isPrefixOf] at hpref
  | cons c rest =>
      have hc : '.' = c := by
        simp only [List.isPrefixOf, Bool.and_eq_true, beq_iff_eq] at hpref
        exact hpref.1
      have hmem : c ∈ v.data :=
        ((List.mem_tails _ _).mp htl).subset (List.mem_cons_self ..)
      exact hv c hmem hc.symm

/-! ## Claims C7 and C9: filename derivation -/

/-- C7: a present string name containing one of the four literal
extensions is returned verbatim; otherwise the value is base64-decoded as
UTF-8 text, so a base64-encoded UTF-8 name round-trips to the original
text (a base64 text contains no dot, hence never matches the literal
extensions); an absent name yields the synthetic name: the record name
with non-alphanumerics replaced by `_`, truncated to 12 characters, plus
a dot and the kind's canonical extension. -/
theorem c7_filename_rules (m : RawRecord) :
    (∀ v, lookupField m "filenameEnc" = some (some (.str v)) →
      (strContains v ".png" || strContains v ".dng" ||
       strContains v ".mp4" || strContains v ".gif") = true →
      filename m = some v) ∧
    (∀ s, lookupField m "filenameEnc" = some (some (.str (pyB64EncodeUtf8 s))) →
      filename m = some s) ∧
    ((lookupField m "filenameEnc" = none ∨ lookupField m "filenameEnc" = some none) →
      ∀ ext, item_type_extension m = some ext →
        filename m = some (String.mk ((sanitizeId m.recordName).data.take 12) ++ "." ++ ext)) := by
  refine ⟨?_, ?_, ?_⟩
  · intro v hv hc
    unfold filename
    rw [hv]
    dsimp only
    split_ifs with h1 h2 h3 h4
    · rfl
    · rfl
    · rfl
    · rfl
    · exfalso
      simp [h1, h2, h3, h4] at hc
  · intro s hs
    unfold filename
    rw [hs]
    dsimp only
    have h1 : strContains (pyB64EncodeUtf8 s) ".png" = false :=
      strContains_eq_false_of_no_dot _ (pyB64Encode_no_dot s) ".png" _ rfl
    have h2 : strContains (pyB64EncodeUtf8 s) ".dng" = false :=
      strContains_eq_false_of_no_dot _ (pyB64Encode_no_dot s) ".dng" _ rfl
    have h3 : strContains (pyB64EncodeUtf8 s) ".mp4" = false :=
      strContains_eq_false_of_no_dot _ (pyB64Encode_no_dot s) ".mp4" _ rfl
    have h4 : strContains (pyB64EncodeUtf8 s) ".gif" = false :=
      strContains_eq_false_of_no_dot _ (pyB64Encode_no_dot s) ".gif" _ rfl
    rw [h1, if_neg Bool.false_ne_true, h2, if_neg Bool.false_ne_true,
      h3, if_neg Bool.false_ne_true, h4, if_neg Bool.false_ne_true]
    exact pyB64_roundtrip s
  · intro hlk ext hext
    rcases hlk with hk | hk <;>
      (unfold filename
       rw [hk]
       dsimp only
       unfold syntheticFilename
       rw [hext, Option.map_some'])

/-- A master whose stored name carries a literal extension. -/
def m7a : RawRecord := ⟨"CPLMaster", "ra", [("filenameEnc", some (.str "pic.gif"))]⟩

/-- A master whose stored name is base64-encoded UTF-8 text. -/
def m7b : RawRecord :=
  ⟨"CPLMaster", "rb", [("filenameEnc", some (.str (pyB64EncodeUtf8 "café.jpg")))]⟩

/-- A master with no stored name at all. -/
def m7c : RawRecord :=
  ⟨"CPLMaster", "AB-12/xy+long", [("itemType", some (.str "public.mpeg-4"))]⟩

theorem c7_filename_rules_witness :
    lookupField m7a "filenameEnc" = some (some (.str "pic.gif")) ∧
    (strContains "pic.gif" ".png" || strContains "pic.gif" ".dng" ||
     strContains "pic.gif" ".mp4" || strContains "pic.gif" ".gif") = true ∧
    filename m7a = some "pic.gif" ∧
    lookupField m7b "filenameEnc" = some (some (.str (pyB64EncodeUtf8 "café.jpg"))) ∧
    filename m7b = some "café.jpg" ∧
    lookupField m7c "filenameEnc" = none ∧
    item_type_extension m7c = some "MP4" ∧
    filename m7c = some (String.mk ((sanitizeId m7c.recordName).data.take 12) ++ "." ++ "MP4") :=
  ⟨rfl, by decide, (c7_filename_rules m7a).1 "pic.gif" rfl (by decide),
   rfl, (c7_filename_rules m7b).2.1 "café.jpg" rfl,
   rfl, rfl, (c7_filename_rules m7c).2.2 (Or.inl rfl) "MP4" rfl⟩

/-- C9: the verbatim pass-through in `filename` triggers on substring
containment anywhere in the value (`strContains` models Python
`find(...) > -1`), not only on a suffix: any present string value
containing `.png`, `.dng`, `.mp4` or `.gif` is returned unchanged and is
never base64-decoded. -/
theorem c9_substring_passthrough (m : RawRecord) (v : String)
    (hv : lookupField m "filenameEnc" = some (some (.str v)))
    (hc : (strContains v ".png" || strContains v ".dng" ||
           strContains v ".mp4" || strContains v ".gif") = true) :
    filename m = some v := by
  unfold filename
  rw [hv]
  dsimp only
  split_ifs with h1 h2 h3 h4
  · rfl
  · rfl
  · rfl
  · rfl
  · exfalso
    simp [h1, h2, h3, h4] at hc

/-- A master whose stored name contains `.png` in the middle only. -/
def m9 : RawRecord := ⟨"CPLMaster", "r9", [("filenameEnc", some (.str "abc.png.b64"))]⟩

theorem c9_substring_passthrough_witness :
    lookupField m9 "filenameEnc" = some (some (.str "abc.png.b64")) ∧
    (strContains "abc.png.b64" ".png" || strContains "abc.png.b64" ".dng" ||
     strContains "abc.png.b64" ".mp4" || strContains "abc.png.b64" ".gif") = true ∧
    pyEndsWith "abc.png.b64" ".png" = false ∧
    filename m9 = some "abc.png.b64" :=
  ⟨rfl, by decide, by decide,
    c9_substring_passthrough m9 "abc.png.b64" rfl (by decide)⟩
